import Mathlib

/-!
Verification development for the flecs rule solver (src/rule_solver.c).

The definitions below are shallow embeddings of the C functions of the rule
solver: machine integers become `Nat`/`Int` with explicit masking where
overflow matters, fallible code returns `Except`, and stateful code passes
its state explicitly.  The ECS world itself (tables, table indexes, sparse
sets) is out of scope for the solver per the specification's external
interface section; where a claim depends on it, the world is abstracted by
the boolean outcome of the world probe.
-/

set_option autoImplicit false

namespace RuleSolver

/-- `ECS_RULE_MAX_VARIABLE_COUNT` from rule_solver.c. -/
def ECS_RULE_MAX_VARIABLE_COUNT : Nat := 256

/-- `UINT8_MAX`, used as the out-of-band sentinel for variable ids. -/
def UINT8_MAX : Nat := 255

/-- Modelled from the spec: the dedicated `Wildcard` sentinel entity id
(a reserved builtin id; its definition lives outside src/). Only its
distinctness from ordinary ids matters here. -/
def EcsWildcard : Nat := 266

/-- Modelled from the spec: the `This` ("`.`") placeholder entity id
(a reserved builtin id; its definition lives outside src/). -/
def EcsThis : Nat := 264

/-- Modelled from the spec: the role-bit field occupies the top byte of a
64-bit id. -/
def ECS_ROLE_MASK : Nat := 0xFF00000000000000

/-- Modelled from the spec: the component mask clears the role byte. -/
def ECS_COMPONENT_MASK : Nat := 0x00FFFFFFFFFFFFFF

/-- `ecs_entity_t_lo`: the low 32 bits of an id. -/
def ecs_entity_t_lo (e : Nat) : Nat := e % 2 ^ 32

/-- `ecs_entity_t_hi`: the high 32 bits of an id (C right shift by 32). -/
def ecs_entity_t_hi (e : Nat) : Nat := e / 2 ^ 32

/-- `ecs_rule_filter_t` from rule_solver.c. -/
structure ecs_rule_filter_t where
  mask : Nat
  expr_mask : Nat
  expr_match : Nat
  wildcard : Bool
  pred_wildcard : Bool
  obj_wildcard : Bool
  same_var : Bool
  hi_var : Int
  lo_var : Int
deriving DecidableEq, Repr

/-- The per-element test of `find_next_match`'s loop body: the bloom-filter
comparison `(entities[i] & expr_mask) == expr_match`, refined by the
`same_var` check that the low half equals the masked high half. -/
def filter_element_test (f : ecs_rule_filter_t) (e : Nat) : Bool :=
  (Nat.land e f.expr_mask == f.expr_match) &&
    (!f.same_var ||
      (ecs_entity_t_lo e == ecs_entity_t_hi (Nat.land e ECS_COMPONENT_MASK)))

/-- The scan loop of `find_next_match`: examine elements `i, i+1, ...` of the
type, for `remaining` iterations (the C loop runs from `i` to `count - 1`,
that is `count - i` iterations). Returns the first matching index or -1. -/
def find_next_match_loop (type : List Nat) (f : ecs_rule_filter_t)
    (i : Nat) : Nat → Int
  | 0 => -1
  | remaining + 1 =>
    if filter_element_test f (type.getD i 0) then (i : Int)
    else find_next_match_loop type f (i + 1) remaining

/-- `find_next_match` from rule_solver.c.  When the predicate is not a
wildcard and the start column is nonzero, the scan is cut to at most the
single element at `column` (ids sharing a predicate are contiguous in a
sorted type). -/
def find_next_match (type : List Nat) (column : Nat)
    (f : ecs_rule_filter_t) : Int :=
  let count := type.length
  let count :=
    if !f.pred_wildcard && decide (column ≠ 0) && decide (column < count) then
      column + 1
    else count
  find_next_match_loop type f column (count - column)

/-- `ecs_rule_var_kind_t` from rule_solver.c (C enum; `Table` is the smallest
value, which drives the sort). -/
inductive ecs_rule_var_kind_t where
  | EcsRuleVarKindTable
  | EcsRuleVarKindEntity
  | EcsRuleVarKindUnknown
deriving DecidableEq, Repr

/-- The numeric value of the C enum constant. -/
def kind_val : ecs_rule_var_kind_t → Nat
  | .EcsRuleVarKindTable => 0
  | .EcsRuleVarKindEntity => 1
  | .EcsRuleVarKindUnknown => 2

/-- `ecs_rule_var_t` from rule_solver.c. -/
structure ecs_rule_var_t where
  kind : ecs_rule_var_kind_t
  name : String
  id : Nat
  occurs : Nat
  depth : Nat
  marked : Bool
deriving DecidableEq, Repr

instance : Inhabited ecs_rule_var_t :=
  ⟨⟨.EcsRuleVarKindUnknown, "", 0, 0, 0, false⟩⟩

/-- `find_variable` from rule_solver.c: first variable whose name matches and
whose kind matches (an `Unknown` query kind matches any kind). -/
def find_variable (vars : List ecs_rule_var_t) (kind : ecs_rule_var_kind_t)
    (name : String) : Option ecs_rule_var_t :=
  vars.find? fun v =>
    v.name == name &&
      (kind == .EcsRuleVarKindUnknown || kind == v.kind)

/-- `ecs_rule_find_variable` from rule_solver.c: public lookup, always with
the `Entity` kind; returns the variable id or -1. -/
def ecs_rule_find_variable (vars : List ecs_rule_var_t) (name : String) : Int :=
  match find_variable vars .EcsRuleVarKindEntity name with
  | some v => (v.id : Int)
  | none => -1

/-- `create_variable` from rule_solver.c, restricted to named variables (the
anonymous-register branch is not exercised by variable scanning).  The new
variable is appended; its id is its position; `depth` starts at `UINT8_MAX`.
The C version additionally truncates its element counter through `uint8_t`,
which corrupts ids past 256 variables; the model keeps exact counts, which
only matters after the (never firing) limit check below. -/
def create_variable (vars : List ecs_rule_var_t) (kind : ecs_rule_var_kind_t)
    (name : String) : List ecs_rule_var_t × Nat :=
  (vars ++ [⟨kind, name, vars.length, 0, UINT8_MAX, false⟩], vars.length)

/-- `compare_variable` from rule_solver.c.  Note the source's trailing
`return (v1->id < v2->id) - (v1->id > v2->id);` is dead code: the `occurs`
comparison above it returns from both branches, so the comparator never
consults ids and never returns 0. -/
def compare_variable (v1 v2 : ecs_rule_var_t) : Int :=
  if kind_val v1.kind < kind_val v2.kind then -1
  else if kind_val v2.kind < kind_val v1.kind then 1
  else if v1.depth < v2.depth then -1
  else if v2.depth < v1.depth then 1
  else if v1.occurs < v2.occurs then 1
  else -1

/-- What `qsort` guarantees of its output: each adjacent pair satisfies the
comparator (result ≤ 0). -/
def sorted_by_compare (l : List ecs_rule_var_t) : Prop :=
  l.Chain' fun a b => compare_variable a b ≤ 0

/-- The strict order claimed for the sorted variable array:
kind ascending, depth ascending, occurs descending, id descending. -/
def var_key_lt (a b : ecs_rule_var_t) : Prop :=
  kind_val a.kind < kind_val b.kind ∨
    (kind_val a.kind = kind_val b.kind ∧
      (a.depth < b.depth ∨
        (a.depth = b.depth ∧
          (b.occurs < a.occurs ∨ (a.occurs = b.occurs ∧ b.id < a.id)))))

instance : DecidableRel var_key_lt := fun a b =>
  inferInstanceAs (Decidable (kind_val a.kind < kind_val b.kind ∨
    (kind_val a.kind = kind_val b.kind ∧
      (a.depth < b.depth ∨
        (a.depth = b.depth ∧
          (b.occurs < a.occurs ∨ (a.occurs = b.occurs ∧ b.id < a.id)))))))

/-- The weak order that `compare_variable` actually establishes:
kind ascending, depth ascending, occurs descending; ties are unordered. -/
def var_key_le (a b : ecs_rule_var_t) : Prop :=
  kind_val a.kind < kind_val b.kind ∨
    (kind_val a.kind = kind_val b.kind ∧
      (a.depth < b.depth ∨ (a.depth = b.depth ∧ b.occurs ≤ a.occurs)))

instance : DecidableRel var_key_le := fun a b =>
  inferInstanceAs (Decidable (kind_val a.kind < kind_val b.kind ∨
    (kind_val a.kind = kind_val b.kind ∧
      (a.depth < b.depth ∨ (a.depth = b.depth ∧ b.occurs ≤ a.occurs)))))

/-- `ecs_sig_identifier_t` (from the signature parser): a concrete entity id
(`0` means "named variable", `EcsThis` means the `.` placeholder) and a name. -/
structure ecs_sig_identifier_t where
  entity : Nat
  name : String
deriving DecidableEq, Repr

/-- `ecs_sig_column_t` (from the signature parser): a term with a predicate
and arguments; `argv[0]` is the subject, `argv[1]` (when present) the object. -/
structure ecs_sig_column_t where
  pred : ecs_sig_identifier_t
  argv : List ecs_sig_identifier_t
deriving DecidableEq, Repr

/-- The subject identifier `argv[0]` of a term (terms always have one). -/
def column_subject (c : ecs_sig_column_t) : ecs_sig_identifier_t :=
  c.argv.headD ⟨0, ""⟩

/-- The local state of `scan_variables` during step 1 (root collection):
the growing variable array and the counters declared at the top of the
function.  `subject_count` is declared and tested there but — faithfully to
the source — never incremented; `this_var` is initialized to `UINT8_MAX` and
never assigned. -/
structure scan_vars_state where
  vars : List ecs_rule_var_t
  subject_count : Nat
  this_var : Nat
  max_occur : Nat
  max_occur_var : Nat
deriving DecidableEq, Repr

/-- Compile-time error kinds of `ecs_rule_new`. -/
inductive rule_compile_error where
  | too_many_variables
  | unconstrained_variable (name : String)
deriving DecidableEq, Repr

/-- `++subj->occurs` on the variable with the given id. -/
def bump_occurs (vars : List ecs_rule_var_t) (id : Nat) :
    List ecs_rule_var_t :=
  vars.map fun v => if v.id = id then { v with occurs := v.occurs + 1 } else v

/-- Step-1 body of `scan_variables` for one term: if the subject is the
`This` placeholder or a named variable, ensure a Table-kind variable for it
(erroring — in principle — when `subject_count` exceeds the maximum),
increment its `occurs`, and track the maximum-occurrence variable. -/
def scan_step1_col (st : scan_vars_state) (col : ecs_sig_column_t) :
    Except rule_compile_error scan_vars_state :=
  if (column_subject col).entity = 0 ∨ (column_subject col).entity = EcsThis
  then
    match find_variable st.vars .EcsRuleVarKindTable
        (column_subject col).name with
    | some v =>
      Except.ok { st with
        vars := bump_occurs st.vars v.id
        max_occur :=
          if st.max_occur < v.occurs + 1 then v.occurs + 1 else st.max_occur
        max_occur_var :=
          if st.max_occur < v.occurs + 1 then v.id else st.max_occur_var }
    | none =>
      if ECS_RULE_MAX_VARIABLE_COUNT ≤ st.subject_count then
        Except.error .too_many_variables
      else
        Except.ok { st with
          vars := bump_occurs
            (create_variable st.vars .EcsRuleVarKindTable
              (column_subject col).name).1
            (create_variable st.vars .EcsRuleVarKindTable
              (column_subject col).name).2
          max_occur := if st.max_occur < 1 then 1 else st.max_occur
          max_occur_var :=
            if st.max_occur < 1 then
              (create_variable st.vars .EcsRuleVarKindTable
                (column_subject col).name).2
            else st.max_occur_var }
  else
    Except.ok st

/-- The step-1 loop of `scan_variables` over the term list. -/
def scan_step1_go (st : scan_vars_state) :
    List ecs_sig_column_t → Except rule_compile_error scan_vars_state
  | [] => Except.ok st
  | c :: rest =>
    match scan_step1_col st c with
    | Except.error e => Except.error e
    | Except.ok st' => scan_step1_go st' rest

/-- The initial scan state of `scan_variables` (all counters as declared at
the top of the function). -/
def scan_init_state : scan_vars_state :=
  ⟨[], 0, UINT8_MAX, 0, UINT8_MAX⟩

/-- Step 1 of `scan_variables`: collect all possible roots. -/
def scan_variables_step1 (cols : List ecs_sig_column_t) :
    Except rule_compile_error scan_vars_state :=
  scan_step1_go scan_init_state cols

/-- Step 2 of `scan_variables`: root election.  `root_var` starts from
`this_var` and falls back to `max_occur_var`; `none` means no subject
variable exists and no root election is required. -/
def elect_root (st : scan_vars_state) : Option Nat :=
  let root_var := st.this_var
  let root_var := if root_var = UINT8_MAX then st.max_occur_var else root_var
  if root_var = UINT8_MAX then none else some root_var

/-- `ecs_rule_op_kind_t` from rule_solver.c (C enum; `Input` is value 0 and
is therefore also what `memset(0)` produces in a fresh operation). -/
inductive ecs_rule_op_kind_t where
  | EcsRuleInput
  | EcsRuleDfs
  | EcsRuleSelect
  | EcsRuleWith
  | EcsRuleEach
  | EcsRuleYield
deriving DecidableEq, Repr

/-- `ecs_rule_pair_t` from rule_solver.c. -/
structure ecs_rule_pair_t where
  pred : Nat
  obj : Nat
  reg_mask : Nat
  transitive : Bool
deriving DecidableEq, Repr

instance : Inhabited ecs_rule_pair_t := ⟨⟨0, 0, 0, false⟩⟩

/-- `ecs_rule_op_t` from rule_solver.c. -/
structure ecs_rule_op_t where
  kind : ecs_rule_op_kind_t
  param : ecs_rule_pair_t
  subject : Nat
  on_ok : Int
  on_fail : Int
  column : Int
  r_in : Nat
  r_out : Nat
  has_in : Bool
  has_out : Bool
deriving DecidableEq, Repr

/-- A freshly `memset(0)` operation, as produced by `create_operation`. -/
def zeroed_op : ecs_rule_op_t :=
  ⟨.EcsRuleInput, ⟨0, 0, 0, false⟩, 0, 0, 0, 0, 0, 0, false, false⟩

instance : Inhabited ecs_rule_op_t := ⟨zeroed_op⟩

/-- The operation produced by `insert_operation` when appended at position
`pos`: `on_ok` is the new operation count `pos + 1` and `on_fail` is the
previous operation `pos - 1`; the signature column index is stored. -/
def inserted_op (pos : Nat) (column : Int) : ecs_rule_op_t :=
  { zeroed_op with
    on_ok := (pos : Int) + 1
    on_fail := (pos : Int) - 1
    column := column }

/-- The fields the emitter assigns to an operation obtained from
`insert_operation` (the emitter never touches `on_ok`/`on_fail`). -/
structure mid_op_spec where
  kind : ecs_rule_op_kind_t
  param : ecs_rule_pair_t
  subject : Nat
  column : Int
  r_in : Nat
  r_out : Nat
  has_in : Bool
  has_out : Bool
deriving DecidableEq, Repr

instance : Inhabited mid_op_spec :=
  ⟨⟨.EcsRuleInput, default, 0, 0, 0, 0, false, false⟩⟩

/-- An operation inserted at position `pos` with the emitter's fields
filled in. -/
def mk_mid_op (pos : Nat) (m : mid_op_spec) : ecs_rule_op_t :=
  { inserted_op pos m.column with
    kind := m.kind
    param := m.param
    subject := m.subject
    r_in := m.r_in
    r_out := m.r_out
    has_in := m.has_in
    has_out := m.has_out }

/-- The first operation of every rule program (`ecs_rule_new`): `Input` with
`on_ok = 1` and `on_fail = -1`. -/
def input_op : ecs_rule_op_t :=
  { zeroed_op with kind := .EcsRuleInput, on_ok := 1, on_fail := -1 }

/-- The final operation of every rule program (`ecs_rule_new`): `Yield`,
created by `create_operation` (so `on_ok` keeps its `memset` value 0) with
`on_fail = operation_count - 2` and the yielded register. -/
def yield_op (pos : Nat) (r_in : Nat) : ecs_rule_op_t :=
  { zeroed_op with
    kind := .EcsRuleYield
    has_in := true
    on_fail := ((pos : Int) + 1) - 2
    r_in := r_in }

/-- The middle emission loop of `ecs_rule_new`: each emitted operation goes
through `insert_operation` and then has its kind-specific fields assigned. -/
def build_middle (ops : List ecs_rule_op_t) :
    List mid_op_spec → List ecs_rule_op_t
  | [] => ops
  | m :: rest => build_middle (ops ++ [mk_mid_op ops.length m]) rest

/-- The operation-list skeleton produced by `ecs_rule_new`: the `Input`
operation, the emitted middle operations in order, and the final `Yield`
(whose input register is the `.` variable if one exists, else
`UINT8_MAX`). -/
def build_program (mids : List mid_op_spec) (yield_r_in : Nat) :
    List ecs_rule_op_t :=
  let ops := build_middle [input_op] mids
  ops ++ [yield_op ops.length yield_r_in]

/-! ### Ground rules and the evaluation driver

A ground term (no variables) compiles to a `With` operation with a constant
subject (`r_in = UINT8_MAX`) and a pair with `reg_mask = 0`, so
`pair_to_filter` reads no registers and produces a non-wildcard filter.  For
such a filter `eval_with` returns `false` immediately on redo, and on first
visit its result is a fixed boolean decided entirely by the world (table-set
probe, `find_next_match`, transitive search).  The world being out of scope,
that boolean is the `holds` field of the term. -/

/-- A ground term: constant subject, compiled pair, and the world's verdict
on whether the subject's table satisfies the pair. -/
structure ground_term where
  subject : Nat
  pair : ecs_rule_pair_t
  holds : Bool
deriving DecidableEq, Repr

instance : Inhabited ground_term := ⟨⟨0, default, false⟩⟩

/-- The emitter fields of the constant-subject `With` operation that
`ecs_rule_new` emits for a ground term at signature column `c`. -/
def ground_mid (c : Nat) (t : ground_term) : mid_op_spec :=
  ⟨.EcsRuleWith, t.pair, t.subject, (c : Int), UINT8_MAX, 0, true, false⟩

/-- The emitter specs of a list of ground terms, starting at column `c`. -/
def ground_mids : List ground_term → Nat → List mid_op_spec
  | [], _ => []
  | t :: rest, c => ground_mid c t :: ground_mids rest (c + 1)

/-- `ecs_rule_new` on a rule whose terms are all ground: `scan_variables`
finds no variables, so the program is `Input`, one constant-subject `With`
per term, and `Yield` with `r_in = UINT8_MAX` (no `.` variable). -/
def ecs_rule_new_ground (terms : List ground_term) : List ecs_rule_op_t :=
  build_program (ground_mids terms 0) UINT8_MAX

/-- The driver state of `ecs_rule_next`: current operation index and the
redo flag. -/
structure iter_vm_state where
  op : Int
  redo : Bool
deriving DecidableEq, Repr

/-- Operation evaluation (`eval_op`) specialized to the opcodes of a ground
program.  `Input` succeeds only on first visit; `With` on a ground filter
fails on redo (`redo && !filter.wildcard`) and otherwise reports the world's
verdict for its signature column; `Yield` always fails. -/
def eval_op_ground (terms : List ground_term) (op : ecs_rule_op_t)
    (redo : Bool) : Bool :=
  match op.kind with
  | .EcsRuleInput => !redo
  | .EcsRuleWith => !redo && (terms.getD op.column.toNat default).holds
  | .EcsRuleYield => false
  | _ => false

/-- The do-while loop of `ecs_rule_next`, with explicit fuel (each iteration
consumes one unit; `ecs_rule_next` supplies enough for any trajectory).
Returns the call's boolean result and the stored `(op, redo)` state; `none`
only on fuel exhaustion. -/
def ecs_rule_next_loop (prog : List ecs_rule_op_t)
    (terms : List ground_term) :
    iter_vm_state → Nat → Option (Bool × iter_vm_state)
  | _, 0 => none
  | st, fuel + 1 =>
    let op := prog.getD st.op.toNat zeroed_op
    let result := eval_op_ground terms op st.redo
    let st' : iter_vm_state :=
      if result then ⟨op.on_ok, false⟩ else ⟨op.on_fail, true⟩
    if op.kind = .EcsRuleYield then some (true, st')
    else if st'.op = -1 then some (false, st')
    else ecs_rule_next_loop prog terms st' fuel

/-- `ecs_rule_next` on a ground program: run the loop from the given state
with ample fuel. -/
def ecs_rule_next_ground (terms : List ground_term) (st : iter_vm_state) :
    Option (Bool × iter_vm_state) :=
  let prog := ecs_rule_new_ground terms
  ecs_rule_next_loop prog terms st (2 * prog.length + 2)

/-! ### Iterator construction and destruction -/

/-- The register file of a fresh iterator.  A cell is `none` while it still
holds whatever `malloc` returned; `ecs_rule_iter`'s loop then writes
`EcsWildcard` to the first `variable_count` cells only. -/
structure ecs_rule_iter_regs_t where
  registers : List (Option Nat)
  op : Int
deriving DecidableEq, Repr

/-- The register-initialization loop of `ecs_rule_iter`: for
`i = 0 .. n-1`, set cell `i` to `EcsWildcard`. -/
def init_regs_loop (rs : List (Option Nat)) : Nat → List (Option Nat)
  | 0 => rs
  | i + 1 => (init_regs_loop rs i).set i (some EcsWildcard)

/-- `ecs_rule_iter` from rule_solver.c, restricted to the register file and
position: allocate `operation_count * variable_count` cells, run the
initialization loop over `variable_count` cells, and start at operation 0. -/
def ecs_rule_iter (operation_count variable_count : Nat) :
    ecs_rule_iter_regs_t :=
  let registers :=
    List.replicate (operation_count * variable_count) (none : Option Nat)
  { registers := init_regs_loop registers variable_count, op := 0 }

/-- Outcome of a modelled `free`. -/
inductive free_error where
  | double_free
deriving DecidableEq, Repr

/-- `ecs_os_free` on a modelled heap (the list of live allocations):
freeing NULL is a no-op; freeing a live allocation removes it; freeing
anything else is a double free. -/
def ecs_os_free_model (heap : List Nat) (p : Option Nat) :
    Except free_error (List Nat) :=
  match p with
  | none => Except.ok heap
  | some a => if a ∈ heap then Except.ok (heap.erase a)
              else Except.error .double_free

/-- The pointer fields that `ecs_rule_iter_free` touches. -/
structure ecs_rule_iter_mem_t where
  registers : Option Nat
  columns : Option Nat
  op_ctx : Option Nat
  components : Option Nat
deriving DecidableEq, Repr

/-- `ecs_rule_iter_free` from rule_solver.c: frees the four allocations and
nulls `registers`, `columns` and `op_ctx` — but, faithfully to the source,
not `table.components`. -/
def ecs_rule_iter_free (heap : List Nat) (it : ecs_rule_iter_mem_t) :
    Except free_error (List Nat × ecs_rule_iter_mem_t) := do
  let heap ← ecs_os_free_model heap it.registers
  let heap ← ecs_os_free_model heap it.columns
  let heap ← ecs_os_free_model heap it.op_ctx
  let heap ← ecs_os_free_model heap it.components
  Except.ok (heap, { it with registers := none, columns := none,
                             op_ctx := none })

/-! ### The Each operation -/

/-- The sentinel-skip loop of `eval_each`: starting at `row`, with
`remaining` rows left in the table, return the first entity that is neither
`EcsWildcard` nor `EcsThis`, or `none` when the rows run out.  Faithfully to
the source, only the local row advances — the persistent `op_ctx->row` is
not updated here. -/
def each_skip (entities : List Nat) (row : Nat) : Nat → Option Nat
  | 0 => none
  | remaining + 1 =>
    let e := entities.getD row 0
    if e = EcsWildcard || e = EcsThis then each_skip entities (row + 1) remaining
    else some e

/-- `eval_each` from rule_solver.c on the bound table's entity column:
returns the yielded entity (or `none` for "no more rows") and the new
`op_ctx->row`. -/
def eval_each (entities : List Nat) (ctx_row : Nat) (redo : Bool) :
    Option Nat × Nat :=
  let count := entities.length
  let row := if redo then ctx_row + 1 else 0
  if row < count then (each_skip entities row (count - row), row)
  else (none, row)

/-! ## Theorems -/

theorem filter_element_test_iff (f : ecs_rule_filter_t) (e : Nat) :
    filter_element_test f e = true ↔
      (Nat.land e f.expr_mask = f.expr_match ∧
        (f.same_var = true →
          ecs_entity_t_lo e =
            ecs_entity_t_hi (Nat.land e ECS_COMPONENT_MASK))) := by
  unfold filter_element_test
  cases f.same_var <;> simp

theorem find_next_match_loop_spec (type : List Nat) (f : ecs_rule_filter_t) :
    ∀ (remaining i : Nat),
      find_next_match_loop type f i remaining = -1 ∨
        ∃ j : Nat, find_next_match_loop type f i remaining = (j : Int) ∧
          i ≤ j ∧ j < i + remaining ∧
          filter_element_test f (type.getD j 0) = true := by
  intro remaining
  induction remaining with
  | zero => intro i; left; rfl
  | succ r ih =>
    intro i
    by_cases h : filter_element_test f (type.getD i 0) = true
    · right
      refine ⟨i, ?_, le_refl i, by omega, h⟩
      simp only [find_next_match_loop]
      rw [if_pos h]
    · have hrw : find_next_match_loop type f i (r + 1) =
          find_next_match_loop type f (i + 1) r := by
        simp only [find_next_match_loop]
        rw [if_neg h]
      rw [hrw]
      rcases ih (i + 1) with h1 | ⟨j, hj, hij, hjr, hm⟩
      · left; exact h1
      · right; exact ⟨j, hj, by omega, by omega, hm⟩

/-- C5: `find_next_match` returns -1 or an index `i ≥ start` whose element
passes the mask test (and, under `same_var`, whose low half equals its
masked high half); and when the predicate is not a wildcard and the start
column is positive, only the element at the start column can be returned. -/
theorem find_next_match_spec (type : List Nat) (column : Nat)
    (f : ecs_rule_filter_t) :
    (find_next_match type column f = -1 ∨
      ∃ i : Nat, find_next_match type column f = (i : Int) ∧ column ≤ i ∧
        i < type.length ∧
        Nat.land (type.getD i 0) f.expr_mask = f.expr_match ∧
        (f.same_var = true →
          ecs_entity_t_lo (type.getD i 0) =
            ecs_entity_t_hi (Nat.land (type.getD i 0) ECS_COMPONENT_MASK))) ∧
    (f.pred_wildcard = false → 0 < column →
      (find_next_match type column f = -1 ∨
        find_next_match type column f = (column : Int))) := by
  constructor
  · unfold find_next_match
    set cnt := if !f.pred_wildcard && decide (column ≠ 0) &&
        decide (column < type.length) then column + 1 else type.length with hcnt
    have hle : cnt ≤ type.length := by
      rw [hcnt]
      split
      · next hcond =>
        simp only [Bool.and_eq_true, decide_eq_true_eq] at hcond
        omega
      · exact le_refl _
    rcases find_next_match_loop_spec type f (cnt - column) column with
      h | ⟨j, hj, hij, hjr, hm⟩
    · left; exact h
    · right
      refine ⟨j, hj, hij, by omega, ?_⟩
      exact (filter_element_test_iff f (type.getD j 0)).mp hm
  · intro hp hc
    unfold find_next_match
    simp only [hp, Bool.not_false, Bool.true_and]
    have hne : decide (column ≠ 0) = true := by simp; omega
    rw [hne]
    by_cases hlt : column < type.length
    · simp only [Bool.true_and, decide_eq_true_eq, if_pos hlt]
      have h1 : column + 1 - column = 1 := by omega
      rw [h1]
      by_cases hm : filter_element_test f (type.getD column 0) = true
      · right
        simp only [find_next_match_loop]
        rw [if_pos hm]
      · left
        simp only [find_next_match_loop]
        rw [if_neg hm]
    · simp only [Bool.true_and, decide_eq_true_eq, if_neg hlt]
      have h0 : type.length - column = 0 := by omega
      rw [h0]
      left; rfl

/-- Witness for `find_next_match_spec` at a filter without a predicate
wildcard and a positive start column. -/
theorem find_next_match_spec_witness :
    find_next_match [3, 7] 1 ⟨0, 0, 0, false, false, false, false, -1, -1⟩
        = -1 ∨
      find_next_match [3, 7] 1 ⟨0, 0, 0, false, false, false, false, -1, -1⟩
        = 1 :=
  (find_next_match_spec [3, 7] 1
    ⟨0, 0, 0, false, false, false, false, -1, -1⟩).2 rfl (by decide)

/-- C10: `ecs_rule_find_variable` matches only Entity-kind variables — it
returns the id of the (first) Entity-kind variable with the given name when
one exists, and -1 when no Entity-kind variable has that name (in
particular when the name exists only as a Table-kind variable). -/
theorem ecs_rule_find_variable_spec (vars : List ecs_rule_var_t)
    (name : String) :
    ((∃ v ∈ vars, v.kind = .EcsRuleVarKindEntity ∧ v.name = name) →
      ∃ v ∈ vars, v.kind = .EcsRuleVarKindEntity ∧ v.name = name ∧
        ecs_rule_find_variable vars name = (v.id : Int)) ∧
    ((∀ v ∈ vars, v.kind = .EcsRuleVarKindEntity → v.name ≠ name) →
      ecs_rule_find_variable vars name = -1) := by
  have hpred : ∀ v : ecs_rule_var_t,
      (v.name == name &&
        ((.EcsRuleVarKindEntity : ecs_rule_var_kind_t)
            == .EcsRuleVarKindUnknown ||
          (.EcsRuleVarKindEntity : ecs_rule_var_kind_t) == v.kind)) = true ↔
        v.name = name ∧ v.kind = .EcsRuleVarKindEntity := by
    intro v
    cases v with
    | mk kind vname id occurs depth marked =>
      cases kind <;> simp
  constructor
  · rintro ⟨v, hv, hkind, hname⟩
    have hsome : (find_variable vars .EcsRuleVarKindEntity name).isSome := by
      unfold find_variable
      rw [List.find?_isSome]
      exact ⟨v, hv, (hpred v).mpr ⟨hname, hkind⟩⟩
    obtain ⟨w, hw⟩ := Option.isSome_iff_exists.mp hsome
    have hmem : w ∈ vars := List.mem_of_find?_eq_some hw
    have hwp := List.find?_some hw
    rw [hpred w] at hwp
    refine ⟨w, hmem, hwp.2, hwp.1, ?_⟩
    unfold ecs_rule_find_variable
    rw [hw]
  · intro hall
    unfold ecs_rule_find_variable find_variable
    rw [List.find?_eq_none.mpr]
    intro v hv hp
    have := (hpred v).mp hp
    exact hall v hv this.2 this.1

/-- Witness for `ecs_rule_find_variable_spec`: a name present in both kinds
resolves to the Entity-kind variable's id, and a name present only in Table
kind resolves to -1. -/
theorem ecs_rule_find_variable_spec_witness :
    (∃ v ∈ [(⟨.EcsRuleVarKindTable, "X", 0, 0, 0, false⟩ : ecs_rule_var_t),
            ⟨.EcsRuleVarKindEntity, "X", 1, 0, 0, false⟩],
      v.kind = .EcsRuleVarKindEntity ∧ v.name = "X" ∧
        ecs_rule_find_variable
          [⟨.EcsRuleVarKindTable, "X", 0, 0, 0, false⟩,
           ⟨.EcsRuleVarKindEntity, "X", 1, 0, 0, false⟩] "X" = (v.id : Int)) ∧
    ecs_rule_find_variable
      [(⟨.EcsRuleVarKindTable, "Y", 0, 0, 0, false⟩ : ecs_rule_var_t)] "Y"
        = -1 :=
  ⟨(ecs_rule_find_variable_spec _ "X").1
      ⟨⟨.EcsRuleVarKindEntity, "X", 1, 0, 0, false⟩, by simp, rfl, rfl⟩,
   (ecs_rule_find_variable_spec _ "Y").2 (by decide)⟩

theorem compare_variable_nonpos (a b : ecs_rule_var_t)
    (h : compare_variable a b ≤ 0) : var_key_le a b := by
  unfold compare_variable at h
  unfold var_key_le
  split_ifs at h with h1 h2 h3 h4 h5
  · exact Or.inl h1
  · exact absurd h (by norm_num)
  · exact Or.inr ⟨by omega, Or.inl h3⟩
  · exact absurd h (by norm_num)
  · exact absurd h (by norm_num)
  · exact Or.inr ⟨by omega, Or.inr ⟨by omega, by omega⟩⟩

/-- Counterexample for C3: two distinct variables that tie on kind, depth
and occurs.  The comparator never consults their ids (its id tiebreak is
dead code), so the ascending-id order is a legal qsort output even though
the claimed key demands descending ids: the array is comparator-sorted yet
not strictly ordered by `(kind, depth, -occurs, -id)`. -/
theorem compare_variable_tie_not_strictly_ordered :
    sorted_by_compare
        [⟨.EcsRuleVarKindEntity, "X", 1, 0, 0, false⟩,
         ⟨.EcsRuleVarKindEntity, "Y", 2, 0, 0, false⟩] ∧
      ¬ List.Chain' var_key_lt
          [⟨.EcsRuleVarKindEntity, "X", 1, 0, 0, false⟩,
           ⟨.EcsRuleVarKindEntity, "Y", 2, 0, 0, false⟩] := by
  constructor
  · unfold sorted_by_compare
    exact List.chain'_pair.mpr (by decide)
  · intro hch
    have := List.chain'_pair.mp hch
    revert this
    decide

/-- C3 (amended): an array sorted with `compare_variable` is weakly ordered
by (kind ascending, depth ascending, occurs descending); nothing orders
variables that tie on all three keys, because the comparator's id tiebreak
is unreachable. -/
theorem compare_variable_sorted_weak (l : List ecs_rule_var_t)
    (h : sorted_by_compare l) : List.Chain' var_key_le l :=
  List.Chain'.imp (fun a b hab => compare_variable_nonpos a b hab) h

/-- Witness for `compare_variable_sorted_weak` on a concrete sorted array. -/
theorem compare_variable_sorted_weak_witness :
    List.Chain' var_key_le
      [⟨.EcsRuleVarKindTable, ".", 0, 2, 0, false⟩,
       ⟨.EcsRuleVarKindEntity, "X", 1, 0, 0, false⟩] :=
  compare_variable_sorted_weak
    [⟨.EcsRuleVarKindTable, ".", 0, 2, 0, false⟩,
     ⟨.EcsRuleVarKindEntity, "X", 1, 0, 0, false⟩]
    (by unfold sorted_by_compare; exact List.chain'_pair.mpr (by decide))

theorem scan_step1_col_ok (st : scan_vars_state) (col : ecs_sig_column_t)
    (h : st.subject_count < ECS_RULE_MAX_VARIABLE_COUNT) :
    ∃ st', scan_step1_col st col = Except.ok st' ∧
      st'.subject_count = st.subject_count := by
  unfold scan_step1_col
  split
  · split
    · exact ⟨_, rfl, rfl⟩
    · rw [if_neg (by omega)]
      exact ⟨_, rfl, rfl⟩
  · exact ⟨st, rfl, rfl⟩

theorem scan_step1_go_ok :
    ∀ (cols : List ecs_sig_column_t) (st : scan_vars_state),
      st.subject_count < ECS_RULE_MAX_VARIABLE_COUNT →
      ∃ st', scan_step1_go st cols = Except.ok st' ∧
        st'.subject_count = st.subject_count := by
  intro cols
  induction cols with
  | nil => intro st _; exact ⟨st, rfl, rfl⟩
  | cons c rest ih =>
    intro st h
    obtain ⟨st1, h1, hc1⟩ := scan_step1_col_ok st c h
    obtain ⟨st2, h2, hc2⟩ := ih st1 (by omega)
    refine ⟨st2, ?_, by omega⟩
    unfold scan_step1_go
    rw [h1]
    exact h2

/-- C1: because `subject_count` is never incremented in `scan_variables`,
the `too many variables` check can never fire — step 1 succeeds for every
term list, including ones introducing more than 256 distinct subject
variables.  (In the C code the `uint8_t` element counter of
`create_variable` then silently wraps instead of reporting the error.) -/
theorem scan_variables_never_too_many (cols : List ecs_sig_column_t) :
    ∃ st, scan_variables_step1 cols = Except.ok st := by
  obtain ⟨st, h, -⟩ :=
    scan_step1_go_ok cols scan_init_state (by decide)
  exact ⟨st, h⟩

/-- C2: on the rule `P(.), Q(X), R(X)` the term list contains the `This`
subject and a Table-kind variable named `.` is created, yet root election
returns variable 1 (named `X`, the maximum-occurrence subject): `this_var`
is initialized to the sentinel and never assigned, so `.` is never
preferred. -/
theorem this_variable_not_preferred_as_root :
    (scan_variables_step1
        [⟨⟨100, "P"⟩, [⟨EcsThis, "."⟩]⟩,
         ⟨⟨101, "Q"⟩, [⟨0, "X"⟩]⟩,
         ⟨⟨102, "R"⟩, [⟨0, "X"⟩]⟩]).map
      (fun st =>
        ((find_variable st.vars .EcsRuleVarKindTable ".").isSome,
          elect_root st,
          (st.vars.getD 1 default).name)) =
      Except.ok (true, some 1, "X") := by
  rfl

/-- C8: `ecs_rule_iter_free` is not idempotent.  The first call frees all
four allocations but leaves the `table.components` pointer set, so a second
call — which happens in normal use, since `ecs_rule_next` frees the
iterator on exhaustion before the owner frees it again — double-frees the
components array. -/
theorem ecs_rule_iter_free_not_idempotent :
    ecs_rule_iter_free [1, 2, 3, 4] ⟨some 1, some 2, some 3, some 4⟩ =
        Except.ok ([], ⟨none, none, none, some 4⟩) ∧
      ecs_rule_iter_free [] ⟨none, none, none, some 4⟩ =
        Except.error .double_free :=
  ⟨rfl, rfl⟩

/-- C9: `eval_each` on the entity column `[Wildcard, 10, 20]` yields entity
10 twice.  The sentinel-skip loop advances only its local row, never
`op_ctx->row`, so after skipping the sentinel at row 0 and yielding row 1's
entity, the next redo resumes from row 0+1 = 1 and yields the same entity
again — instead of one output per non-sentinel row. -/
theorem eval_each_duplicate_output :
    eval_each [EcsWildcard, 10, 20] 0 false = (some 10, 0) ∧
      eval_each [EcsWildcard, 10, 20] 0 true = (some 10, 1) ∧
      eval_each [EcsWildcard, 10, 20] 1 true = (some 20, 2) ∧
      eval_each [EcsWildcard, 10, 20] 2 true = (none, 3) :=
  ⟨rfl, rfl, rfl, rfl⟩

theorem init_regs_loop_length (rs : List (Option Nat)) :
    ∀ n, (init_regs_loop rs n).length = rs.length := by
  intro n
  induction n with
  | zero => rfl
  | succ k ih => simp [init_regs_loop, ih]

theorem init_regs_loop_get_lt (rs : List (Option Nat)) :
    ∀ n i, i < n → i < rs.length →
      (init_regs_loop rs n).get? i = some (some EcsWildcard) := by
  intro n
  induction n with
  | zero => intro i h _; omega
  | succ k ih =>
    intro i hik hirs
    show ((init_regs_loop rs k).set k (some EcsWildcard)).get? i = _
    by_cases hk : i = k
    · subst hk
      exact List.get?_set_eq_of_lt _ (by rw [init_regs_loop_length]; exact hirs)
    · rw [List.get?_set_ne _ _ (fun h => hk h.symm)]
      exact ih i (by omega) hirs

theorem init_regs_loop_get_ge (rs : List (Option Nat)) :
    ∀ n i, n ≤ i → (init_regs_loop rs n).get? i = rs.get? i := by
  intro n
  induction n with
  | zero => intro i _; rfl
  | succ k ih =>
    intro i hik
    show ((init_regs_loop rs k).set k (some EcsWildcard)).get? i = _
    rw [List.get?_set_ne _ _ (by omega)]
    exact ih i (by omega)

/-- C7 (amended): `ecs_rule_iter` starts at operation 0 and initializes to
`Wildcard` exactly the first `variable_count` register cells (the frame of
operation 0); every later cell of the
`operation_count * variable_count` array keeps its uninitialized `malloc`
contents. -/
theorem ecs_rule_iter_inits_first_frame (operation_count variable_count : Nat)
    (h : 1 ≤ operation_count) :
    (ecs_rule_iter operation_count variable_count).op = 0 ∧
    (∀ i, i < variable_count →
      (ecs_rule_iter operation_count variable_count).registers.get? i =
        some (some EcsWildcard)) ∧
    (∀ i, variable_count ≤ i → i < operation_count * variable_count →
      (ecs_rule_iter operation_count variable_count).registers.get? i =
        some none) := by
  have hlen : variable_count ≤ operation_count * variable_count := by
    calc variable_count = 1 * variable_count := (one_mul _).symm
    _ ≤ operation_count * variable_count := Nat.mul_le_mul_right _ h
  refine ⟨rfl, ?_, ?_⟩
  · intro i hi
    unfold ecs_rule_iter
    exact init_regs_loop_get_lt _ _ i hi (by simp; omega)
  · intro i hi hi2
    unfold ecs_rule_iter
    rw [init_regs_loop_get_ge _ _ i hi]
    simp [List.get?_eq_getElem?, hi2]

/-- Witness for `ecs_rule_iter_inits_first_frame` at a two-operation,
one-variable rule. -/
theorem ecs_rule_iter_inits_first_frame_witness :
    (ecs_rule_iter 2 1).op = 0 ∧
      (ecs_rule_iter 2 1).registers.get? 0 = some (some EcsWildcard) ∧
      (ecs_rule_iter 2 1).registers.get? 1 = some none :=
  ⟨(ecs_rule_iter_inits_first_frame 2 1 (by decide)).1,
   (ecs_rule_iter_inits_first_frame 2 1 (by decide)).2.1 0 (by decide),
   (ecs_rule_iter_inits_first_frame 2 1 (by decide)).2.2 1 (by decide)
     (by decide)⟩

/-- Counterexample for C7: in a rule with two operations and one variable,
the register cell of frame 1 is not initialized to `Wildcard` — only frame
0's cells are. -/
theorem rule_iter_registers_not_all_wildcard :
    ¬ ∀ i, i < 2 * 1 →
        (ecs_rule_iter 2 1).registers.get? i = some (some EcsWildcard) := by
  intro h
  have h1 := h 1 (by omega)
  revert h1
  decide

theorem build_middle_length (mids : List mid_op_spec) :
    ∀ ops, (build_middle ops mids).length = ops.length + mids.length := by
  induction mids with
  | nil => intro ops; simp [build_middle]
  | cons m rest ih =>
    intro ops
    show (build_middle (ops ++ [mk_mid_op ops.length m]) rest).length = _
    rw [ih]
    simp
    omega

theorem build_middle_getD_lt (mids : List mid_op_spec) :
    ∀ ops k, k < ops.length →
      (build_middle ops mids).getD k zeroed_op = ops.getD k zeroed_op := by
  induction mids with
  | nil => intro ops k _; rfl
  | cons m rest ih =>
    intro ops k hk
    show (build_middle (ops ++ [mk_mid_op ops.length m]) rest).getD k _ = _
    rw [ih _ k (by simp; omega)]
    exact List.getD_append _ _ _ _ hk

theorem build_middle_getD_mid (mids : List mid_op_spec) :
    ∀ ops j, j < mids.length →
      (build_middle ops mids).getD (ops.length + j) zeroed_op =
        mk_mid_op (ops.length + j) (mids.getD j default) := by
  induction mids with
  | nil => intro ops j h; simp at h
  | cons m rest ih =>
    intro ops j hj
    cases j with
    | zero =>
      show (build_middle (ops ++ [mk_mid_op ops.length m]) rest).getD
          (ops.length + 0) _ = _
      rw [build_middle_getD_lt rest _ _ (by simp)]
      rw [Nat.add_zero]
      rw [List.getD_append_right _ _ _ _ (le_refl _)]
      simp
    | succ j' =>
      have h2 : (ops ++ [mk_mid_op ops.length m]).length = ops.length + 1 := by
        simp
      have h1 : ops.length + (j' + 1) =
          (ops ++ [mk_mid_op ops.length m]).length + j' := by omega
      show (build_middle (ops ++ [mk_mid_op ops.length m]) rest).getD
          (ops.length + (j' + 1)) _ = _
      rw [h1, ih _ j' (by simpa using hj), ← h1]
      rfl

theorem build_program_length (mids : List mid_op_spec) (r : Nat) :
    (build_program mids r).length = mids.length + 2 := by
  unfold build_program
  rw [List.length_append, build_middle_length]
  show 1 + mids.length + 1 = mids.length + 2
  omega

theorem build_program_getD_zero (mids : List mid_op_spec) (r : Nat) :
    (build_program mids r).getD 0 zeroed_op = input_op := by
  unfold build_program
  rw [List.getD_append _ _ _ _ (by rw [build_middle_length]; simp)]
  rw [build_middle_getD_lt mids _ 0 (by simp)]
  rfl

theorem build_program_getD_mid (mids : List mid_op_spec) (r : Nat) (j : Nat)
    (hj : j < mids.length) :
    (build_program mids r).getD (j + 1) zeroed_op =
      mk_mid_op (j + 1) (mids.getD j default) := by
  unfold build_program
  rw [List.getD_append _ _ _ _ (by rw [build_middle_length]; simp; omega)]
  have h1 : j + 1 = (List.length [input_op]) + j := by
    show j + 1 = 1 + j
    omega
  rw [h1, build_middle_getD_mid mids _ j hj]

theorem build_program_getD_last (mids : List mid_op_spec) (r : Nat) :
    (build_program mids r).getD (mids.length + 1) zeroed_op =
      yield_op (mids.length + 1) r := by
  unfold build_program
  have h1 : mids.length + 1 = (build_middle [input_op] mids).length := by
    rw [build_middle_length]
    show mids.length + 1 = 1 + mids.length
    omega
  rw [h1, List.getD_append_right _ _ _ _ (le_refl _)]
  rw [Nat.sub_self]
  show yield_op (build_middle [input_op] mids).length r = _
  rw [← h1]

/-- C6 (amended): in every emitted program, op 0 is `Input` with
`on_ok = 1`, `on_fail = -1`; every middle op `0 < k < operation_count - 1`
has `on_fail = k - 1 < k` and `on_ok = k + 1`; the last op is `Yield` with
`on_fail = operation_count - 2` — but its `on_ok` is the zero-initialized 0
(never used, as `Yield` always fails), not a member of
`{k+1, …, operation_count} ∪ {-1}`. -/
theorem program_jump_invariants (mids : List mid_op_spec) (r : Nat) :
    (build_program mids r).length = mids.length + 2 ∧
    ((build_program mids r).getD 0 zeroed_op).kind = .EcsRuleInput ∧
    ((build_program mids r).getD 0 zeroed_op).on_ok = 1 ∧
    ((build_program mids r).getD 0 zeroed_op).on_fail = -1 ∧
    ((build_program mids r).getD (mids.length + 1) zeroed_op).kind =
      .EcsRuleYield ∧
    ((build_program mids r).getD (mids.length + 1) zeroed_op).on_fail =
      (mids.length : Int) ∧
    ((build_program mids r).getD (mids.length + 1) zeroed_op).on_ok = 0 ∧
    (∀ k, 0 < k → k < mids.length + 1 →
      ((build_program mids r).getD k zeroed_op).on_fail = (k : Int) - 1 ∧
      ((build_program mids r).getD k zeroed_op).on_ok = (k : Int) + 1) := by
  refine ⟨build_program_length mids r, ?_, ?_, ?_, ?_, ?_, ?_, ?_⟩
  · rw [build_program_getD_zero]; rfl
  · rw [build_program_getD_zero]; rfl
  · rw [build_program_getD_zero]; rfl
  · rw [build_program_getD_last]; rfl
  · rw [build_program_getD_last]
    unfold yield_op
    show (((mids.length + 1 : Nat) : Int) + 1) - 2 = (mids.length : Int)
    omega
  · rw [build_program_getD_last]; rfl
  · intro k hk hk2
    obtain ⟨j, rfl⟩ : ∃ j, k = j + 1 := ⟨k - 1, by omega⟩
    rw [build_program_getD_mid mids r j (by omega)]
    exact ⟨rfl, rfl⟩

/-- Witness for `program_jump_invariants` on a one-term program. -/
theorem program_jump_invariants_witness :
    ((build_program [⟨.EcsRuleWith, ⟨0, 0, 0, false⟩, 5, 0, 255, 0, true,
        false⟩] 255).getD 1 zeroed_op).on_fail = 0 ∧
      ((build_program [⟨.EcsRuleWith, ⟨0, 0, 0, false⟩, 5, 0, 255, 0, true,
        false⟩] 255).getD 1 zeroed_op).on_ok = 2 :=
  (program_jump_invariants
    [⟨.EcsRuleWith, ⟨0, 0, 0, false⟩, 5, 0, 255, 0, true, false⟩]
    255).2.2.2.2.2.2.2 1 (by decide) (by decide)

/-- Counterexample for C6 as stated: in the compiled one-term ground rule
(operation_count = 3) the final op (index 2) is `Yield` whose `on_ok` is 0,
which is neither in `{3, …, 3}` nor equal to -1. -/
theorem yield_on_ok_out_of_range :
    ((ecs_rule_new_ground [⟨5, ⟨0, 0, 0, false⟩, true⟩]).getD 2
        zeroed_op).kind = .EcsRuleYield ∧
      (ecs_rule_new_ground [⟨5, ⟨0, 0, 0, false⟩, true⟩]).length = 3 ∧
      ((ecs_rule_new_ground [⟨5, ⟨0, 0, 0, false⟩, true⟩]).getD 2
        zeroed_op).on_ok = 0 ∧
      ¬ ((3 : Int) ≤
            ((ecs_rule_new_ground [⟨5, ⟨0, 0, 0, false⟩, true⟩]).getD 2
              zeroed_op).on_ok ∨
          ((ecs_rule_new_ground [⟨5, ⟨0, 0, 0, false⟩, true⟩]).getD 2
            zeroed_op).on_ok = -1) := by
  refine ⟨rfl, rfl, rfl, ?_⟩
  decide

theorem ground_mids_length :
    ∀ (terms : List ground_term) (c : Nat),
      (ground_mids terms c).length = terms.length := by
  intro terms
  induction terms with
  | nil => intro c; rfl
  | cons t rest ih =>
    intro c
    show (ground_mids rest (c + 1)).length + 1 = rest.length + 1
    rw [ih]

theorem ground_mids_getD :
    ∀ (terms : List ground_term) (c j : Nat), j < terms.length →
      (ground_mids terms c).getD j default =
        ground_mid (c + j) (terms.getD j default) := by
  intro terms
  induction terms with
  | nil => intro c j h; simp at h
  | cons t rest ih =>
    intro c j hj
    cases j with
    | zero => rfl
    | succ j' =>
      show (ground_mids rest (c + 1)).getD j' default =
        ground_mid (c + (j' + 1)) (rest.getD j' default)
      rw [ih (c + 1) j' (by simpa using hj)]
      congr 1
      omega

theorem ground_prog_length (terms : List ground_term) :
    (ecs_rule_new_ground terms).length = terms.length + 2 := by
  unfold ecs_rule_new_ground
  rw [build_program_length, ground_mids_length]

theorem ground_prog_getD_zero (terms : List ground_term) :
    (ecs_rule_new_ground terms).getD 0 zeroed_op = input_op :=
  build_program_getD_zero _ _

theorem ground_prog_getD_with (terms : List ground_term) (j : Nat)
    (hj : j < terms.length) :
    (ecs_rule_new_ground terms).getD (j + 1) zeroed_op =
      mk_mid_op (j + 1) (ground_mid j (terms.getD j default)) := by
  unfold ecs_rule_new_ground
  rw [build_program_getD_mid _ _ j (by rw [ground_mids_length]; exact hj)]
  rw [ground_mids_getD terms 0 j hj, Nat.zero_add]

theorem ground_prog_getD_yield (terms : List ground_term) :
    (ecs_rule_new_ground terms).getD (terms.length + 1) zeroed_op =
      yield_op (terms.length + 1) UINT8_MAX := by
  unfold ecs_rule_new_ground
  have h := build_program_getD_last (ground_mids terms 0) UINT8_MAX
  rw [ground_mids_length] at h
  exact h

theorem next_loop_step (prog : List ecs_rule_op_t)
    (terms : List ground_term) (st : iter_vm_state) (f : Nat)
    (op : ecs_rule_op_t)
    (hop : prog.getD st.op.toNat zeroed_op = op) :
    ecs_rule_next_loop prog terms st (f + 1) =
      (if op.kind = .EcsRuleYield then
        some (true,
          if eval_op_ground terms op st.redo then
            (⟨op.on_ok, false⟩ : iter_vm_state)
          else ⟨op.on_fail, true⟩)
      else if (if eval_op_ground terms op st.redo then
            (⟨op.on_ok, false⟩ : iter_vm_state)
          else ⟨op.on_fail, true⟩).op = -1 then
        some (false,
          if eval_op_ground terms op st.redo then
            (⟨op.on_ok, false⟩ : iter_vm_state)
          else ⟨op.on_fail, true⟩)
      else ecs_rule_next_loop prog terms
        (if eval_op_ground terms op st.redo then
            (⟨op.on_ok, false⟩ : iter_vm_state)
          else ⟨op.on_fail, true⟩) f) := by
  subst hop
  rfl

theorem ground_cascade (terms : List ground_term) :
    ∀ k, k ≤ terms.length → ∀ fuel, k + 1 ≤ fuel →
      ecs_rule_next_loop (ecs_rule_new_ground terms) terms
        ⟨(k : Int), true⟩ fuel = some (false, ⟨-1, true⟩) := by
  intro k
  induction k with
  | zero =>
    intro _ fuel hf
    obtain ⟨f, rfl⟩ : ∃ f, fuel = f + 1 := ⟨fuel - 1, by omega⟩
    rw [next_loop_step _ _ _ f input_op (by
      show (ecs_rule_new_ground terms).getD (Int.toNat 0) zeroed_op = input_op
      exact ground_prog_getD_zero terms)]
    simp [input_op, zeroed_op, eval_op_ground]
  | succ k ih =>
    intro hk fuel hf
    obtain ⟨f, rfl⟩ : ∃ f, fuel = f + 1 := ⟨fuel - 1, by omega⟩
    have htn : ((⟨((k + 1 : Nat) : Int), true⟩ : iter_vm_state).op.toNat)
        = k + 1 := by simp
    rw [next_loop_step _ _ _ f
      (mk_mid_op (k + 1) (ground_mid k (terms.getD k default)))
      (by rw [htn]; exact ground_prog_getD_with terms k (by omega))]
    have heval : eval_op_ground terms
        (mk_mid_op (k + 1) (ground_mid k (terms.getD k default))) true
          = false := by
      simp [eval_op_ground, mk_mid_op, ground_mid, inserted_op, zeroed_op]
    have hkind : (mk_mid_op (k + 1)
        (ground_mid k (terms.getD k default))).kind = .EcsRuleWith := rfl
    have hfail : (mk_mid_op (k + 1)
        (ground_mid k (terms.getD k default))).on_fail = (k : Int) := by
      show ((k + 1 : Nat) : Int) - 1 = (k : Int)
      push_cast
      ring
    rw [heval, hkind, hfail]
    rw [if_neg (show (ecs_rule_op_kind_t.EcsRuleWith : ecs_rule_op_kind_t) ≠
      .EcsRuleYield by simp)]
    have hst : (if (false = true) then
        (⟨(mk_mid_op (k + 1)
            (ground_mid k (terms.getD k default))).on_ok, false⟩ :
          iter_vm_state)
        else ⟨(k : Int), true⟩) = ⟨(k : Int), true⟩ := by simp
    rw [hst]
    have hne : ¬((⟨(k : Int), true⟩ : iter_vm_state).op = -1) := by
      show ¬((k : Int) = -1)
      omega
    rw [if_neg hne]
    exact ih (by omega) f (by omega)

theorem ground_forward (terms : List ground_term) :
    ∀ d j, j + d = terms.length → ∀ fuel, terms.length + d + 3 ≤ fuel →
      ecs_rule_next_loop (ecs_rule_new_ground terms) terms
        ⟨((j + 1 : Nat) : Int), false⟩ fuel =
        (if (terms.drop j).all (fun t => t.holds) then
          some (true, ⟨(terms.length : Int), true⟩)
        else some (false, ⟨-1, true⟩)) := by
  intro d
  induction d with
  | zero =>
    intro j hj fuel hf
    have hjl : j = terms.length := by omega
    subst hjl
    obtain ⟨f, rfl⟩ : ∃ f, fuel = f + 1 := ⟨fuel - 1, by omega⟩
    rw [next_loop_step _ _ _ f (yield_op (terms.length + 1) UINT8_MAX)
      (by
        show (ecs_rule_new_ground terms).getD
          (((terms.length + 1 : Nat) : Int)).toNat zeroed_op = _
        rw [Int.toNat_natCast]
        exact ground_prog_getD_yield terms)]
    have hall : (terms.drop terms.length).all (fun t => t.holds) = true := by
      rw [List.drop_length]
      rfl
    rw [if_pos hall]
    rw [if_pos (show (yield_op (terms.length + 1) UINT8_MAX).kind =
      .EcsRuleYield from rfl)]
    have heval : eval_op_ground terms
        (yield_op (terms.length + 1) UINT8_MAX) false = false := rfl
    rw [heval]
    rw [if_neg (show ¬(false = true) by simp)]
    have hfail : (yield_op (terms.length + 1) UINT8_MAX).on_fail =
        (terms.length : Int) := by
      show (((terms.length + 1 : Nat) : Int) + 1) - 2 = (terms.length : Int)
      push_cast
      ring
    rw [hfail]
  | succ d ih =>
    intro j hj fuel hf
    have hjlt : j < terms.length := by omega
    obtain ⟨f, rfl⟩ : ∃ f, fuel = f + 1 := ⟨fuel - 1, by omega⟩
    rw [next_loop_step _ _ _ f
      (mk_mid_op (j + 1) (ground_mid j (terms.getD j default)))
      (by
        show (ecs_rule_new_ground terms).getD
          (((j + 1 : Nat) : Int)).toNat zeroed_op = _
        rw [Int.toNat_natCast]
        exact ground_prog_getD_with terms j hjlt)]
    have hkind : (mk_mid_op (j + 1)
        (ground_mid j (terms.getD j default))).kind = .EcsRuleWith := rfl
    have heval : eval_op_ground terms
        (mk_mid_op (j + 1) (ground_mid j (terms.getD j default))) false
          = (terms.getD j default).holds := by
      show (!false && (terms.getD ((j : Int)).toNat default).holds) = _
      rw [Int.toNat_natCast]
      simp
    have hdrop : terms.drop j = terms.getD j default :: terms.drop (j + 1) := by
      rw [List.getD_eq_getElem _ _ hjlt]
      exact List.drop_eq_getElem_cons hjlt
    rw [hkind, heval]
    rw [if_neg (show (ecs_rule_op_kind_t.EcsRuleWith : ecs_rule_op_kind_t) ≠
      .EcsRuleYield by simp)]
    cases hh : (terms.getD j default).holds with
    | true =>
      have hok : (mk_mid_op (j + 1)
          (ground_mid j (terms.getD j default))).on_ok =
            ((j + 1 + 1 : Nat) : Int) := by
        show ((j + 1 : Nat) : Int) + 1 = ((j + 1 + 1 : Nat) : Int)
        push_cast
        ring
      have hst : (if (true = true) then
          (⟨(mk_mid_op (j + 1)
              (ground_mid j (terms.getD j default))).on_ok, false⟩ :
            iter_vm_state)
          else ⟨(mk_mid_op (j + 1)
              (ground_mid j (terms.getD j default))).on_fail, true⟩) =
          ⟨((j + 1 + 1 : Nat) : Int), false⟩ := by
        rw [if_pos rfl, hok]
      rw [hst]
      have hne : ¬((⟨((j + 1 + 1 : Nat) : Int), false⟩ :
          iter_vm_state).op = -1) := by
        show ¬(((j + 1 + 1 : Nat) : Int) = -1)
        omega
      rw [if_neg hne]
      rw [ih (j + 1) (by omega) f (by omega)]
      rw [hdrop, List.all_cons, hh, Bool.true_and]
    | false =>
      have hfail : (mk_mid_op (j + 1)
          (ground_mid j (terms.getD j default))).on_fail = (j : Int) := by
        show ((j + 1 : Nat) : Int) - 1 = (j : Int)
        push_cast
        ring
      have hst : (if (false = true) then
          (⟨(mk_mid_op (j + 1)
              (ground_mid j (terms.getD j default))).on_ok, false⟩ :
            iter_vm_state)
          else ⟨(mk_mid_op (j + 1)
              (ground_mid j (terms.getD j default))).on_fail, true⟩) =
          ⟨(j : Int), true⟩ := by
        rw [if_neg (show ¬(false = true) by simp), hfail]
      rw [hst]
      have hne : ¬((⟨(j : Int), true⟩ : iter_vm_state).op = -1) := by
        show ¬((j : Int) = -1)
        omega
      rw [if_neg hne]
      rw [ground_cascade terms j (le_of_lt hjlt) f (by omega)]
      rw [hdrop, List.all_cons, hh, Bool.false_and]
      rw [if_neg (show ¬(false = true) by simp)]

/-- C4: for a compiled rule whose terms are all ground, iteration yields
exactly one result when every term holds in the world and zero results when
some term fails, and never yields a second result: when all terms hold, the
first `ecs_rule_next` call returns a result and the next call from the
stored state terminates the iterator; when some term fails, the very first
call terminates the iterator. -/
theorem ground_rule_roundtrip (terms : List ground_term) :
    (terms.all (fun t => t.holds) = true →
      ecs_rule_next_ground terms ⟨0, false⟩ =
        some (true, ⟨(terms.length : Int), true⟩) ∧
      ecs_rule_next_ground terms ⟨(terms.length : Int), true⟩ =
        some (false, ⟨-1, true⟩)) ∧
    (terms.all (fun t => t.holds) = false →
      ecs_rule_next_ground terms ⟨0, false⟩ = some (false, ⟨-1, true⟩)) := by
  have hfuel : 2 * (ecs_rule_new_ground terms).length + 2 =
      (2 * terms.length + 5) + 1 := by
    rw [ground_prog_length]
    omega
  have hfirst : ecs_rule_next_ground terms ⟨0, false⟩ =
      (if terms.all (fun t => t.holds) then
        some (true, ⟨(terms.length : Int), true⟩)
      else some (false, ⟨-1, true⟩)) := by
    show ecs_rule_next_loop (ecs_rule_new_ground terms) terms ⟨0, false⟩
      (2 * (ecs_rule_new_ground terms).length + 2) = _
    rw [hfuel]
    rw [next_loop_step _ _ _ _ input_op
      (show (ecs_rule_new_ground terms).getD (Int.toNat 0) zeroed_op = _
        from ground_prog_getD_zero terms)]
    have heval : eval_op_ground terms input_op false = true := rfl
    rw [heval]
    rw [if_neg (show ¬(input_op.kind = .EcsRuleYield) by
      show ¬(ecs_rule_op_kind_t.EcsRuleInput = .EcsRuleYield)
      simp)]
    have hst : (if (true = true) then
        (⟨input_op.on_ok, false⟩ : iter_vm_state)
        else ⟨input_op.on_fail, true⟩) =
        ⟨((0 + 1 : Nat) : Int), false⟩ := by
      rw [if_pos rfl]
      rfl
    rw [hst]
    have hne : ¬((⟨((0 + 1 : Nat) : Int), false⟩ : iter_vm_state).op = -1) := by
      show ¬(((0 + 1 : Nat) : Int) = -1)
      omega
    rw [if_neg hne]
    rw [ground_forward terms terms.length 0 (by omega) _ (by omega)]
    rw [List.drop_zero]
  refine ⟨fun hall => ⟨?_, ?_⟩, fun hsome => ?_⟩
  · rw [hfirst, if_pos hall]
  · show ecs_rule_next_loop (ecs_rule_new_ground terms) terms
      ⟨(terms.length : Int), true⟩
      (2 * (ecs_rule_new_ground terms).length + 2) = _
    exact ground_cascade terms terms.length (le_refl _) _
      (by rw [ground_prog_length]; omega)
  · rw [hfirst, if_neg (by rw [hsome]; simp)]

/-- Witness for `ground_rule_roundtrip`: a one-term rule whose term holds
yields once and then stops; one whose term fails yields nothing. -/
theorem ground_rule_roundtrip_witness :
    (ecs_rule_next_ground [⟨5, ⟨0, 0, 0, false⟩, true⟩] ⟨0, false⟩ =
        some (true, ⟨1, true⟩) ∧
      ecs_rule_next_ground [⟨5, ⟨0, 0, 0, false⟩, true⟩] ⟨1, true⟩ =
        some (false, ⟨-1, true⟩)) ∧
    ecs_rule_next_ground [⟨5, ⟨0, 0, 0, false⟩, false⟩] ⟨0, false⟩ =
      some (false, ⟨-1, true⟩) :=
  ⟨(ground_rule_roundtrip [⟨5, ⟨0, 0, 0, false⟩, true⟩]).1 rfl,
   (ground_rule_roundtrip [⟨5, ⟨0, 0, 0, false⟩, false⟩]).2 rfl⟩

end RuleSolver
